import Mathlib

/-!
Verification of the NexaAgents termination / thread-store / hook subsystem.

This file shallowly embeds, in Lean 4, the program logic of:
  * `src/autogen/experimental/terminations/reflection.py`
    (`ReflectionTerminationManager`), and
  * `src/samples/apps/tinyRA/tinyra/tui.py`
    (`insert_chat_message`, `fetch_chat_history`, `fetch_row`,
    `terminate_on_consecutive_empty`, `summarize`,
    `post_snippet_and_record_history`, and the request/response turn flow
    of `handle_input` / `generate_response_process`),
and proves properties of those embeddings.

Python machine-level conventions used throughout:
  * Python `int` values that the program keeps non-negative (turn counters,
    row ids, root ids) are embedded as `Nat`.
  * A Python value that may be `None` is embedded as an `Option`.
  * A Python function that may raise is embedded as returning `Except PyError`.
  * The JSON text handed to `json.loads` (a standard-library call, external to
    the repository) is embedded by the *outcome* of that call: `none` for a
    `json.JSONDecodeError`, `some v` for the parsed JSON value `v`.
-/

namespace NexaAgents

/-- Exceptions that the embedded code can raise.  `valueError` embeds Python
`ValueError`, `attributeError` embeds `AttributeError` (e.g. calling `.get`
on a non-dict), `assertionError` embeds a failing `assert`. -/
inductive PyError where
  | valueError
  | attributeError
  | assertionError
  deriving DecidableEq, Repr

/-- A parsed JSON value, as produced by Python's `json.loads`. -/
inductive JValue where
  | null
  | bool (b : Bool)
  | num (n : Int)
  | str (s : String)
  | arr (elems : List JValue)
  | obj (fields : List (String × JValue))

/-- Modelled from the spec: `TerminationReason` is the tagged variant
`{MaxTurnsReached | GoalReached | ConsecutiveEmptyInput | Unset}` (the
defining module `autogen/experimental/termination.py` is not part of the
provided sources; only its importer `reflection.py` is). -/
inductive TerminationReason where
  | maxTurnsReached
  | goalReached
  | consecutiveEmptyInput
  | unset
  deriving DecidableEq, Repr

/-- Modelled from the spec: `TerminationResult` is the variant
`Terminated(reason, explanation) | NotTerminated(explanation?)`.  The
`NotTerminated` explanation is an optional value: `reflection.py` constructs
`NotTerminated()` with no argument, `NotTerminated("...")` with a string, and
`NotTerminated(reason)` where `reason` is whatever Python value the `reason`
key of the model's JSON held (possibly not a string), so the explanation slot
is embedded as `Option JValue`. -/
inductive TerminationResult where
  | terminated (reason : TerminationReason) (explanation : String)
  | notTerminated (explanation : Option JValue)

/-- Python `dict.get(k, None)` on the object fields produced by `json.loads`:
the first binding of the key, `none` when the key is absent. -/
def dictGet (fields : List (String × JValue)) (k : String) : Option JValue :=
  match fields with
  | [] => none
  | (k', v) :: rest => if k' = k then some v else dictGet rest k

/-- Collapse a JSON `null` field value to Python `None`: `dict.get` returns
`None` both when the key is absent and when its value is JSON `null`, and the
code only ever tests the result with `is not None` / `isinstance`. -/
def pyOpt (v : Option JValue) : Option JValue :=
  match v with
  | some JValue.null => none
  | x => x

/-- The content of the model response object seen by `check_termination`:
either text (embedded by the outcome of `json.loads` on it, `none` meaning
the text was not valid JSON) or a structured tool-call payload (anything
that is not a `str`, which makes `assert isinstance(response.content, str)`
fail). -/
inductive RespContent where
  | text (parsed : Option JValue)
  | toolCalls

/-- The `try`-block of `ReflectionTerminationManager.check_termination`
(reflection.py lines 73-86): assert the content is text, parse it as JSON,
read `is_done` and `reason` with `dict.get`, and decide.  Only
`json.JSONDecodeError` is caught (yielding `NotTerminated("Failed to parse
response")`); `.get` on a parsed value that is not a JSON object raises an
uncaught `AttributeError`, and non-text content raises `AssertionError`. -/
def judgeResponse (content : RespContent) : Except PyError TerminationResult :=
  match content with
  | RespContent.toolCalls => Except.error PyError.assertionError
  | RespContent.text none =>
      Except.ok (TerminationResult.notTerminated (some (JValue.str "Failed to parse response")))
  | RespContent.text (some j) =>
      match j with
      | JValue.obj fields =>
          let is_done := pyOpt (dictGet fields "is_done")
          let reason := pyOpt (dictGet fields "reason")
          match is_done, reason with
          | some (JValue.bool b), some (JValue.str r) =>
              if b then Except.ok (TerminationResult.terminated TerminationReason.goalReached r)
              else Except.ok (TerminationResult.notTerminated (some (JValue.str r)))
          | _, _ => Except.ok (TerminationResult.notTerminated reason)
      | _ => Except.error PyError.attributeError

/-- `self._max_turns is not None and self._turns >= self._max_turns`
(reflection.py line 53). -/
def maxTurnsFired (maxTurns : Option Nat) (turns : Nat) : Bool :=
  match maxTurns with
  | some m => m ≤ turns
  | none => false

/-- The early-return prefix of `check_termination` (reflection.py lines
53-60), evaluated before the model client is ever invoked: max-turns check,
minimum-turns gate, empty-history check.  `some r` means the method returns
`r` without calling the model; `none` means it falls through to the model
call and `judgeResponse`. -/
def checkEarly (maxTurns : Option Nat) (turns minTurns historyLen : Nat) :
    Option TerminationResult :=
  if maxTurnsFired maxTurns turns then
    some (TerminationResult.terminated TerminationReason.maxTurnsReached "Max turns reached.")
  else if turns ≤ minTurns then
    some (TerminationResult.notTerminated none)
  else if historyLen = 0 then
    some (TerminationResult.notTerminated none)
  else
    none

/-- `ReflectionTerminationManager.check_termination` (reflection.py lines
52-86), with the model client's response content supplied as an argument:
the early checks run first and short-circuit; otherwise the model is invoked
and its response judged. -/
def check_termination (maxTurns : Option Nat) (turns minTurns historyLen : Nat)
    (content : RespContent) : Except PyError TerminationResult :=
  match checkEarly maxTurns turns minTurns historyLen with
  | some r => Except.ok r
  | none => judgeResponse content

/-- `ReflectionTerminationManager.__init__` validation (reflection.py lines
44-47): construction succeeds iff `min_turns >= 1` and, when `max_turns` is
set, `max_turns >= min_turns`; otherwise it raises `ValueError`. -/
def initOk (maxTurns : Option Nat) (minTurns : Nat) : Bool :=
  1 ≤ minTurns &&
    (match maxTurns with
     | some m => minTurns ≤ m
     | none => true)

/-- A parsed JSON object is well-formed for the judge when `is_done` is a
boolean and `reason` is a string (after `dict.get` / `is not None` /
`isinstance` checks). -/
def wellFormedFields (fields : List (String × JValue)) : Bool :=
  match pyOpt (dictGet fields "is_done"), pyOpt (dictGet fields "reason") with
  | some (JValue.bool _), some (JValue.str _) => true
  | _, _ => false

/-! ## ThreadStore: the `chat_history` table of tinyRA (tui.py) -/

/-- One row of the `chat_history` relation:
`chat_history(root_id INTEGER, id INTEGER, role TEXT, content TEXT)`. -/
structure Row where
  root_id : Nat
  id : Nat
  role : String
  content : String
  deriving DecidableEq, Repr

/-- The `chat_history` table, in physical (insertion) order, as SQLite keeps
and returns rows when no `ORDER BY` is given. -/
abbrev Store := List Row

/-- `SELECT MAX(id) FROM chat_history WHERE root_id = ?`: the maximum `id`
among rows of the given root, `none` (SQL `NULL`) when the root has no
rows. -/
def maxIdFor (s : Store) (root : Nat) : Option Nat :=
  match s with
  | [] => none
  | r :: rest =>
      let m := maxIdFor rest root
      if r.root_id = root then
        match m with
        | none => some r.id
        | some v => some (max r.id v)
      else m

/-- `SELECT * FROM chat_history WHERE root_id = ? AND id = ?` fetched one:
whether a row exists at the `(root, id)` key. -/
def existsAt (s : Store) (root id : Nat) : Bool :=
  s.any (fun r => r.root_id = root && r.id = id)

/-- `UPDATE chat_history SET role = ?, content = ? WHERE root_id = ? AND
id = ?`: rewrite `role`/`content` of every row matching the key. -/
def updateRow (s : Store) (root id : Nat) (role content : String) : Store :=
  s.map (fun r =>
    if r.root_id = root && r.id = id then
      { r with role := role, content := content }
    else r)

/-- `insert_chat_message(role, content, root_id, id)` (tui.py lines 143-180)
acting on the table: with `id = none`, allocate `MAX(id)+1` for the root (or
0 when the root is empty) and insert; with `id = some i`, insert if no row
exists at `(root_id, i)`, otherwise update that row's `role`/`content` in
place.  Returns the new table and the id of the inserted (or modified)
row. -/
def insert_chat_message (role content : String) (root_id : Nat)
    (id : Option Nat) (s : Store) : Store × Nat :=
  match id with
  | none =>
      let newId :=
        match maxIdFor s root_id with
        | none => 0
        | some m => m + 1
      (s ++ [⟨root_id, newId, role, content⟩], newId)
  | some i =>
      if existsAt s root_id i then
        (updateRow s root_id i role content, i)
      else
        (s ++ [⟨root_id, i, role, content⟩], i)

/-- `fetch_chat_history(root_id)` (tui.py lines 66-83):
`SELECT ... FROM chat_history WHERE root_id = ?`, in table order. -/
def fetch_chat_history (root_id : Nat) (s : Store) : List Row :=
  s.filter (fun r => r.root_id = root_id)

/-- `fetch_row(id, root_id)` (tui.py lines 106-122): the first row matching
`id = ? AND root_id = ?`, or `none` when there is no match. -/
def fetch_row (id : Nat) (root_id : Nat) (s : Store) : Option Row :=
  (s.filter (fun r => r.root_id = root_id && r.id = id)).head?

/-- A generic `insert_chat_message` call, for reasoning about arbitrary
sequences of appends. -/
structure Op where
  role : String
  content : String
  root : Nat
  id : Option Nat

/-- Run one append against the store, keeping the table. -/
def applyOp (s : Store) (op : Op) : Store :=
  (insert_chat_message op.role op.content op.root op.id s).1

/-- Run a sequence of appends against the store. -/
def applyOps (s : Store) (ops : List Op) : Store :=
  ops.foldl applyOp s

/-- The store holds no two rows with the same `(root_id, id)` key. -/
def dupFree (s : Store) : Prop :=
  (s.map (fun r => (r.root_id, r.id))).Nodup

/-! ## tinyRA hook and termination rule (generate_response_process) -/

/-- The chat-message shape seen by `terminate_on_consecutive_empty`: a dict
with a `role` and a `content` string. -/
structure ChatMsg where
  role : String
  content : String
  deriving DecidableEq, Repr

/-- The loop body of `terminate_on_consecutive_empty` (tui.py lines
1142-1151), walking an already-reversed message list: stop when the counter
hits 0, skip non-`user` messages, and for each `user` message decrement the
counter and set the flag — `true` and continue when the content is empty,
`false` and break otherwise.  `acc` is `consecutive_are_empty`, initially
Python `None`. -/
def consecutiveEmptyLoop : List ChatMsg → Nat → Option Bool → Option Bool
  | [], _, acc => acc
  | m :: rest, last_n, acc =>
      if last_n = 0 then acc
      else if m.role = "user" then
        if m.content.length = 0 then
          consecutiveEmptyLoop rest (last_n - 1) (some true)
        else
          some false
      else
        consecutiveEmptyLoop rest last_n acc

/-- `terminate_on_consecutive_empty(recipient, messages, sender)` (tui.py
lines 1136-1156) with `last_n = 2`: returns `(True, "TERMINATE")` when the
loop left `consecutive_are_empty` truthy (i.e. `True`; both `None` and
`False` are falsy), else `(False, None)`. -/
def terminate_on_consecutive_empty (messages : List ChatMsg) :
    Bool × Option String :=
  let c := consecutiveEmptyLoop messages.reverse 2 none
  if c = some true then (true, some "TERMINATE") else (false, none)

/-- `summarize(text)` (tui.py line 1158-1159): `text[:100]`, the first 100
characters of the text. -/
def summarize (text : String) : String :=
  { data := text.data.take 100 }

/-- The message argument of `post_snippet_and_record_history`: either a bare
string or a dict.  For a dict, `content` is `some c` when the key is present
with string value `c` (Python truthiness of the *empty* string is handled in
the hook itself), and `tool_calls` is `some tc` when the key is present and
truthy, with `tc` standing for the `json.dumps` serialization of the
payload (the standard-library serializer is external to the repository and
is embedded by its output). -/
inductive AgentMessage where
  | ofStr (s : String)
  | ofDict (content : Option String) (tool_calls : Option String)

/-- `post_snippet_and_record_history(sender, message, recipient, silent)`
(tui.py lines 1161-1181), acting on the table, with `msg_idx` the id of the
originating request row: a silent call returns the message untouched; a
non-silent call records the message (its text, or its serialized tool calls
when there is no truthy content) into thread `msg_idx + 1` under the
sender's name, then upserts an `info` row holding the first 100 characters
of the summary at `(root_id = 0, id = msg_idx + 1)`.  A dict with neither
truthy `content` nor truthy `tool_calls` raises `ValueError`. -/
def post_snippet_and_record_history (msg_idx : Nat) (senderName : String)
    (message : AgentMessage) (silent : Bool) (s : Store) :
    Except PyError (Store × AgentMessage) :=
  if silent then Except.ok (s, message)
  else
    match message with
    | AgentMessage.ofStr m =>
        let s1 := (insert_chat_message senderName m (msg_idx + 1) none s).1
        let snippet := summarize m
        Except.ok ((insert_chat_message "info" snippet 0 (some (msg_idx + 1)) s1).1, message)
    | AgentMessage.ofDict content tool_calls =>
        match content with
        | some c =>
            if c ≠ "" then
              let s1 := (insert_chat_message senderName c (msg_idx + 1) none s).1
              let snippet := summarize c
              Except.ok ((insert_chat_message "info" snippet 0 (some (msg_idx + 1)) s1).1, message)
            else
              match tool_calls with
              | some tc =>
                  let s1 := (insert_chat_message senderName tc (msg_idx + 1) none s).1
                  let snippet := summarize "Calling tools…"
                  Except.ok ((insert_chat_message "info" snippet 0 (some (msg_idx + 1)) s1).1, message)
              | none => Except.error PyError.valueError
        | none =>
            match tool_calls with
            | some tc =>
                let s1 := (insert_chat_message senderName tc (msg_idx + 1) none s).1
                let snippet := summarize "Calling tools…"
                Except.ok ((insert_chat_message "info" snippet 0 (some (msg_idx + 1)) s1).1, message)
            | none => Except.error PyError.valueError

/-- The persisted content and the summary that a non-silent hook call derives
from a message, `none` when the message has neither truthy content nor
truthy tool calls (the `ValueError` case). -/
def payloadOf : AgentMessage → Option (String × String)
  | AgentMessage.ofStr m => some (m, m)
  | AgentMessage.ofDict content tool_calls =>
      match content with
      | some c =>
          if c ≠ "" then some (c, c)
          else
            match tool_calls with
            | some tc => some (tc, "Calling tools…")
            | none => none
      | none =>
          match tool_calls with
          | some tc => some (tc, "Calling tools…")
          | none => none

/-! ## Request/response turn flow (handle_input + generate_response_process) -/

/-- The persistence trace of one full exchange for user input `input` ending
with response text `response`, from `TinyRA.handle_input` (tui.py lines
1348-1375) and the tail of `generate_response_process` (line 1243): insert
the request as `("user", input)` into root 0 with an allocated id `r`,
insert the `info` placeholder at `(0, r + 1)`, and finally upsert the
assistant summary at `(0, msg_idx + 1)` with `msg_idx = r`. -/
def exchangeFlow (input response : String) (s : Store) : Store × Nat :=
  let (s1, r) := insert_chat_message "user" input 0 none s
  let s2 := (insert_chat_message "info" "Computing response…" 0 (some (r + 1)) s1).1
  let s3 := (insert_chat_message "assistant" response 0 (some (r + 1)) s2).1
  (s3, r)

/-! ## Helper lemmas: the reflection judge -/

/-- When the max-turns check has not fired, the minimum-turns gate is open
and the history is non-empty, `check_termination` hands the model response
to the judging code. -/
theorem check_termination_gate_open (maxTurns : Option Nat)
    (turns minTurns historyLen : Nat) (content : RespContent)
    (hmax : maxTurnsFired maxTurns turns = false) (hgate : minTurns < turns)
    (hhist : 0 < historyLen) :
    check_termination maxTurns turns minTurns historyLen content =
      judgeResponse content := by
  unfold check_termination checkEarly
  rw [hmax]
  simp [Nat.not_le.mpr hgate, Nat.pos_iff_ne_zero.mp hhist]

/-- On a parsed JSON object whose `is_done`/`reason` fields are missing or
wrongly typed, the judge answers `NotTerminated` carrying whatever the
`reason` field held (possibly nothing). -/
theorem judgeResponse_obj_malformed (fields : List (String × JValue))
    (h : wellFormedFields fields = false) :
    judgeResponse (RespContent.text (some (JValue.obj fields))) =
      Except.ok (TerminationResult.notTerminated (pyOpt (dictGet fields "reason"))) := by
  unfold wellFormedFields at h
  have hred : judgeResponse (RespContent.text (some (JValue.obj fields))) =
      (match pyOpt (dictGet fields "is_done"), pyOpt (dictGet fields "reason") with
       | some (JValue.bool b), some (JValue.str r) =>
           if b then Except.ok (TerminationResult.terminated TerminationReason.goalReached r)
           else Except.ok (TerminationResult.notTerminated (some (JValue.str r)))
       | _, _ =>
           Except.ok (TerminationResult.notTerminated (pyOpt (dictGet fields "reason")))) := rfl
  rw [hred]
  split
  · rename_i b r hb hr
    rw [hb, hr] at h
    simp at h
  · rfl

/-! ## Claim C1 -/

/-- C1 counterexample: with the gate open (`maxTurns = 5`, `turns = 3`,
`minTurns = 1`, two history messages) and a model response whose text is
the valid JSON `5` — so its `is_done` field is missing — `check_termination`
raises an `AttributeError` (`.get` on a non-dict) instead of returning
`NotTerminated`: the claim "a malformed judgment never raises" is false. -/
theorem C1_counterexample :
    check_termination (some 5) 3 1 2 (RespContent.text (some (JValue.num 5))) =
      Except.error PyError.attributeError := rfl

/-- C1 (amended): with the gate open and a non-empty history, a response
text that is not valid JSON yields `NotTerminated("Failed to parse
response")` without raising, and a response that is a JSON *object* with
`is_done` or `reason` missing or wrongly typed yields `NotTerminated`
carrying whatever the object's `reason` field held (possibly no explanation
at all); but a response that is valid JSON and not an object escapes the
handler, so the degradation is not universal. -/
theorem C1_amended_malformed_degrades (maxTurns : Option Nat)
    (turns minTurns historyLen : Nat)
    (hmax : maxTurnsFired maxTurns turns = false) (hgate : minTurns < turns)
    (hhist : 0 < historyLen) :
    check_termination maxTurns turns minTurns historyLen (RespContent.text none) =
      Except.ok (TerminationResult.notTerminated
        (some (JValue.str "Failed to parse response"))) ∧
    ∀ fields, wellFormedFields fields = false →
      check_termination maxTurns turns minTurns historyLen
          (RespContent.text (some (JValue.obj fields))) =
        Except.ok (TerminationResult.notTerminated (pyOpt (dictGet fields "reason"))) := by
  constructor
  · rw [check_termination_gate_open _ _ _ _ _ hmax hgate hhist]
    rfl
  · intro fields hf
    rw [check_termination_gate_open _ _ _ _ _ hmax hgate hhist]
    exact judgeResponse_obj_malformed fields hf

/-- C1 witness: at `maxTurns = none`, `turns = 2`, `minTurns = 1`, one
history message, invalid JSON degrades to the parse-failure diagnostic and
the object `{"is_done": true}` (no `reason`) degrades to `NotTerminated`
with no explanation. -/
theorem C1_amended_malformed_degrades_witness :
    check_termination none 2 1 1 (RespContent.text none) =
      Except.ok (TerminationResult.notTerminated
        (some (JValue.str "Failed to parse response"))) ∧
    check_termination none 2 1 1
        (RespContent.text (some (JValue.obj [("is_done", JValue.bool true)]))) =
      Except.ok (TerminationResult.notTerminated none) := by
  have h := C1_amended_malformed_degrades none 2 1 1 rfl (by decide) (by decide)
  exact ⟨h.1, h.2 [("is_done", JValue.bool true)] rfl⟩

/-! ## Claim C2 -/

/-- C2 counterexample: a validly constructed engine with `minTurns = 1` and
`maxTurns = 1`, at `turnsTaken = 1 ≤ minTurns`, returns
`Terminated(MaxTurnsReached)` — the minimum-turns gate does *not* suppress
the max-turns verdict, because the max-turns check runs first. -/
theorem C2_counterexample :
    initOk (some 1) 1 = true ∧
    check_termination (some 1) 1 1 0 (RespContent.text none) =
      Except.ok (TerminationResult.terminated TerminationReason.maxTurnsReached
        "Max turns reached.") :=
  ⟨rfl, rfl⟩

/-- C2 (amended): on a validly constructed engine with `minTurns = n`, while
`turnsTaken ≤ n` the result of `check_termination` is `NotTerminated`
*unless* the max-turns check fires (which is checked before the gate), and
inside the gate the max-turns check can only fire in the single boundary
state `turnsTaken = minTurns = maxTurns`; all other strategies' verdicts
(including the model judge's) are suppressed. -/
theorem C2_amended_min_turns_gate (maxTurns : Option Nat)
    (turns minTurns historyLen : Nat) (content : RespContent)
    (hinit : initOk maxTurns minTurns = true) (hle : turns ≤ minTurns) :
    check_termination maxTurns turns minTurns historyLen content =
      (if maxTurnsFired maxTurns turns then
        Except.ok (TerminationResult.terminated TerminationReason.maxTurnsReached
          "Max turns reached.")
       else Except.ok (TerminationResult.notTerminated none)) ∧
    (maxTurnsFired maxTurns turns = true →
      maxTurns = some minTurns ∧ turns = minTurns) := by
  constructor
  · unfold check_termination checkEarly
    by_cases hm : maxTurnsFired maxTurns turns
    · rw [hm]
      simp
    · rw [Bool.not_eq_true] at hm
      rw [hm]
      simp [hle]
  · intro hm
    unfold initOk at hinit
    cases maxTurns with
    | none => simp [maxTurnsFired] at hm
    | some m =>
        unfold maxTurnsFired at hm
        simp at hm
        simp at hinit
        have h1 : minTurns ≤ m := hinit.2
        have h2 : m = minTurns := le_antisymm (le_trans hm hle) h1
        exact ⟨by rw [h2], le_antisymm hle (h2 ▸ hm)⟩

/-- C2 witness: the gate in action at `minTurns = 1`, `maxTurns = 2`,
`turnsTaken = 1`: the engine keeps going. -/
theorem C2_amended_min_turns_gate_witness :
    check_termination (some 2) 1 1 0 (RespContent.text none) =
      Except.ok (TerminationResult.notTerminated none) := by
  have h := C2_amended_min_turns_gate (some 2) 1 1 0 (RespContent.text none) rfl
    (by decide)
  simpa using h.1

/-! ## Claim C8 -/

/-- C8: with the gate open and a non-empty history, a model response whose
text parses to a JSON object with boolean `is_done` and string `reason`
yields `Terminated(GoalReached, reason)` when `is_done` is true and
`NotTerminated(reason)` when it is false. -/
theorem C8_wellformed_json_verdict (maxTurns : Option Nat)
    (turns minTurns historyLen : Nat)
    (hmax : maxTurnsFired maxTurns turns = false) (hgate : minTurns < turns)
    (hhist : 0 < historyLen)
    (fields : List (String × JValue)) (b : Bool) (r : String)
    (hdone : dictGet fields "is_done" = some (JValue.bool b))
    (hreason : dictGet fields "reason" = some (JValue.str r)) :
    check_termination maxTurns turns minTurns historyLen
        (RespContent.text (some (JValue.obj fields))) =
      Except.ok
        (if b then TerminationResult.terminated TerminationReason.goalReached r
         else TerminationResult.notTerminated (some (JValue.str r))) := by
  rw [check_termination_gate_open _ _ _ _ _ hmax hgate hhist]
  have hred : judgeResponse (RespContent.text (some (JValue.obj fields))) =
      (match pyOpt (dictGet fields "is_done"), pyOpt (dictGet fields "reason") with
       | some (JValue.bool b), some (JValue.str r) =>
           if b then Except.ok (TerminationResult.terminated TerminationReason.goalReached r)
           else Except.ok (TerminationResult.notTerminated (some (JValue.str r)))
       | _, _ =>
           Except.ok (TerminationResult.notTerminated (pyOpt (dictGet fields "reason")))) := rfl
  rw [hred, hdone, hreason]
  cases b <;> rfl

/-- C8 witness: the spec's own example `{"is_done": true, "reason": "done"}`
gives `Terminated(GoalReached, "done")` at `turns = 2 > minTurns = 1` with
one history message. -/
theorem C8_wellformed_json_verdict_witness :
    check_termination none 2 1 1
        (RespContent.text (some (JValue.obj
          [("is_done", JValue.bool true), ("reason", JValue.str "done")]))) =
      Except.ok (TerminationResult.terminated TerminationReason.goalReached "done") := by
  have h := C8_wellformed_json_verdict none 2 1 1 rfl (by decide) (by decide)
    [("is_done", JValue.bool true), ("reason", JValue.str "done")] true "done" rfl rfl
  simpa using h

/-! ## Claim C10 -/

/-- C10: with the minimum-turns gate open and the max-turns limit not fired,
an empty conversation history makes `check_termination` return
`NotTerminated` before the model call: the early-return prefix already
produces the verdict, so the result is the same for every possible model
response. -/
theorem C10_empty_history_skips_model (maxTurns : Option Nat)
    (turns minTurns : Nat)
    (hmax : maxTurnsFired maxTurns turns = false) (hgate : minTurns < turns) :
    checkEarly maxTurns turns minTurns 0 =
      some (TerminationResult.notTerminated none) ∧
    ∀ content, check_termination maxTurns turns minTurns 0 content =
      Except.ok (TerminationResult.notTerminated none) := by
  have he : checkEarly maxTurns turns minTurns 0 =
      some (TerminationResult.notTerminated none) := by
    unfold checkEarly
    rw [hmax]
    simp [Nat.not_le.mpr hgate]
  refine ⟨he, fun content => ?_⟩
  unfold check_termination
  rw [he]

/-- C10 witness: `maxTurns = none`, `turns = 2`, `minTurns = 1`, empty
history. -/
theorem C10_empty_history_skips_model_witness :
    checkEarly none 2 1 0 = some (TerminationResult.notTerminated none) ∧
    check_termination none 2 1 0 (RespContent.text none) =
      Except.ok (TerminationResult.notTerminated none) := by
  have h := C10_empty_history_skips_model none 2 1 rfl (by decide)
  exact ⟨h.1, h.2 (RespContent.text none)⟩

/-! ## Helper lemmas: the consecutive-empty rule -/

/-- A string has length 0 exactly when it is the empty string. -/
theorem string_length_eq_zero (s : String) : s.length = 0 ↔ s = "" := by
  constructor
  · intro h
    cases s with
    | mk data =>
        have hd : data = [] := List.length_eq_zero.mp h
        simp [hd]
  · intro h
    subst h
    rfl

/-- With the counter exhausted the loop returns the accumulated flag. -/
theorem consecutiveEmptyLoop_zero (l : List ChatMsg) (acc : Option Bool) :
    consecutiveEmptyLoop l 0 acc = acc := by
  cases l <;> rfl

/-- One user message left to inspect, with the flag already `true`: the
result is decided by the next user message alone (or stays `true` when
there is none). -/
theorem consecutiveEmptyLoop_one (l : List ChatMsg) :
    consecutiveEmptyLoop l 1 (some true) =
      (match l.filter (fun m => m.role = "user") with
       | [] => some true
       | u :: _ => if u.content.length = 0 then some true else some false) := by
  induction l with
  | nil => rfl
  | cons m rest ih =>
      by_cases hu : m.role = "user"
      · by_cases hc : m.content.length = 0
        · simp [consecutiveEmptyLoop, hu, hc, List.filter_cons, consecutiveEmptyLoop_zero]
        · simp [consecutiveEmptyLoop, hu, hc, List.filter_cons]
      · simp [consecutiveEmptyLoop, hu, List.filter_cons, ih]

/-- The full loop with `last_n = 2`: the outcome depends only on the first
two user-role messages of the (already reversed) list. -/
theorem consecutiveEmptyLoop_two (l : List ChatMsg) :
    consecutiveEmptyLoop l 2 none =
      (match l.filter (fun m => m.role = "user") with
       | [] => none
       | [u] => if u.content.length = 0 then some true else some false
       | u1 :: u2 :: _ =>
           if u1.content.length = 0 then
             (if u2.content.length = 0 then some true else some false)
           else some false) := by
  induction l with
  | nil => rfl
  | cons m rest ih =>
      by_cases hu : m.role = "user"
      · by_cases hc : m.content.length = 0
        · have hl : consecutiveEmptyLoop (m :: rest) 2 none =
              consecutiveEmptyLoop rest 1 (some true) := by
            simp [consecutiveEmptyLoop, hu, hc]
          rw [hl, consecutiveEmptyLoop_one]
          rcases hf : rest.filter (fun m => m.role = "user") with _ | ⟨u2, us⟩ <;>
            simp [List.filter_cons, hu, hc, hf]
        · have hl : consecutiveEmptyLoop (m :: rest) 2 none = some false := by
            simp [consecutiveEmptyLoop, hu, hc]
          rw [hl]
          rcases hf : rest.filter (fun m => m.role = "user") with _ | ⟨u2, us⟩ <;>
            simp [List.filter_cons, hu, hc, hf]
      · have hl : consecutiveEmptyLoop (m :: rest) 2 none =
            consecutiveEmptyLoop rest 2 none := by
          simp [consecutiveEmptyLoop, hu]
        rw [hl, ih]
        simp [List.filter_cons, hu]

/-- The most recent (up to) two `user`-role messages, newest first. -/
def lastUserMessages (messages : List ChatMsg) : List ChatMsg :=
  (messages.reverse.filter (fun m => m.role = "user")).take 2

/-! ## Claim C3 -/

/-- C3 counterexample: the history `[user:""]` has only one user-role
message, yet `terminate_on_consecutive_empty` already returns
`(True, "TERMINATE")` — the rule does not wait for two qualifying
messages. -/
theorem C3_counterexample :
    terminate_on_consecutive_empty [⟨"user", ""⟩] = (true, some "TERMINATE") ∧
    ([(⟨"user", ""⟩ : ChatMsg)].filter (fun m => m.role = "user")).length = 1 :=
  ⟨rfl, rfl⟩

/-- C3 (amended): the rule returns `Terminated` iff at least one user-role
message exists and *all* of the most recent `min(2, count)` user-role
messages (walking backward from the end, skipping non-user messages) have
empty content; with zero user messages it returns `NotTerminated`. -/
theorem C3_amended_consecutive_empty (messages : List ChatMsg) :
    (terminate_on_consecutive_empty messages).1 = true ↔
      (lastUserMessages messages ≠ [] ∧
       ∀ m ∈ lastUserMessages messages, m.content = "") := by
  unfold terminate_on_consecutive_empty lastUserMessages
  rw [consecutiveEmptyLoop_two]
  rcases hf : messages.reverse.filter (fun m => m.role = "user") with _ | ⟨u1, _ | ⟨u2, us⟩⟩ <;>
    rw [hf]
  · simp
  · by_cases h : u1.content = "" <;>
      simp [h, string_length_eq_zero]
  · by_cases h1 : u1.content = "" <;> by_cases h2 : u2.content = "" <;>
      simp [h1, h2, string_length_eq_zero]

/-! ## Helper lemmas: the thread store -/

/-- The id that an `insert_chat_message` call without explicit `id`
allocates: `MAX(id) + 1` for the root, or 0 when the root has no rows. -/
def nextIdFor (s : Store) (root : Nat) : Nat :=
  match maxIdFor s root with
  | none => 0
  | some m => m + 1

/-- A sequence of `insert_chat_message` calls without explicit `id`, for one
root, collecting the returned ids. -/
def appendSeq (root : Nat) (msgs : List (String × String)) (s : Store) :
    Store × List Nat :=
  match msgs with
  | [] => (s, [])
  | (role, content) :: rest =>
      let s' := (insert_chat_message role content root none s).1
      let id := (insert_chat_message role content root none s).2
      let res := appendSeq root rest s'
      (res.1, id :: res.2)

theorem maxIdFor_append (s : Store) (root : Nat) (r : Row) :
    maxIdFor (s ++ [r]) root =
      (if r.root_id = root then
        some (match maxIdFor s root with
              | none => r.id
              | some m => max m r.id)
       else maxIdFor s root) := by
  induction s with
  | nil =>
      by_cases h : r.root_id = root <;> simp [maxIdFor, h]
  | cons a s ih =>
      by_cases hr : r.root_id = root
      · by_cases ha : a.root_id = root
        · have hcons : maxIdFor ((a :: s) ++ [r]) root =
              (match maxIdFor (s ++ [r]) root with
               | none => some a.id
               | some v => some (max a.id v)) := by
            simp [maxIdFor, ha]
          rw [hcons, ih, if_pos hr]
          cases hm : maxIdFor s root with
          | none => simp [maxIdFor, ha, hm, hr]
          | some v => simp [maxIdFor, ha, hm, hr, Nat.max_assoc]
        · simp [maxIdFor, ih, hr, ha]
      · by_cases ha : a.root_id = root <;> simp [maxIdFor, ih, hr, ha]

theorem nextIdFor_snoc_self (s : Store) (root : Nat) (ro co : String) :
    nextIdFor (s ++ [⟨root, nextIdFor s root, ro, co⟩]) root =
      nextIdFor s root + 1 := by
  unfold nextIdFor
  rw [maxIdFor_append]
  simp only [if_pos rfl]
  cases hm : maxIdFor s root with
  | none => simp [hm]
  | some m => simp [hm, Nat.max_eq_right (Nat.le_succ m)]

/-- Every row of the root is bounded by the root's maximum id. -/
theorem maxIdFor_bound (s : Store) (root : Nat) (r : Row)
    (hr : r ∈ s) (hroot : r.root_id = root) :
    ∃ m, maxIdFor s root = some m ∧ r.id ≤ m := by
  induction s with
  | nil => cases hr
  | cons a s ih =>
      rcases List.mem_cons.mp hr with h | h
      · subst h
        simp only [maxIdFor, hroot, if_pos]
        cases hm : maxIdFor s root with
        | none => exact ⟨r.id, rfl, le_refl _⟩
        | some v => exact ⟨max r.id v, rfl, Nat.le_max_left _ _⟩
      · obtain ⟨m, hm, hle⟩ := ih h
        by_cases ha : a.root_id = root
        · simp only [maxIdFor, ha, if_pos, hm]
          exact ⟨max a.id m, rfl, le_trans hle (Nat.le_max_right _ _)⟩
        · simp only [maxIdFor, ha, if_neg, ite_false, hm]
          exact ⟨m, rfl, hle⟩

/-- Freshness of the allocated id: it is strictly larger than the id of
every existing row of the root. -/
theorem nextIdFor_fresh (s : Store) (root : Nat) (r : Row)
    (hr : r ∈ s) (hroot : r.root_id = root) :
    r.id < nextIdFor s root := by
  obtain ⟨m, hm, hle⟩ := maxIdFor_bound s root r hr hroot
  unfold nextIdFor
  rw [hm]
  exact Nat.lt_succ_of_le hle

/-- If every row of the root has id below `i`, no row sits at `(root, i)`. -/
theorem existsAt_eq_false (s : Store) (root i : Nat)
    (h : ∀ r ∈ s, r.root_id = root → r.id < i) :
    existsAt s root i = false := by
  unfold existsAt
  rw [List.any_eq_false]
  intro r hr
  simp only [Bool.and_eq_true, decide_eq_true_eq, not_and]
  intro hroot hid
  exact absurd hid (Nat.ne_of_lt (h r hr hroot))

/-- `UPDATE` on a table with no matching row is the identity. -/
theorem updateRow_no_match (s : Store) (root i : Nat) (ro co : String)
    (h : ∀ r ∈ s, ¬(r.root_id = root ∧ r.id = i)) :
    updateRow s root i ro co = s := by
  induction s with
  | nil => rfl
  | cons a s ih =>
      have ha := h a (List.mem_cons_self a s)
      have ht := ih (fun r hr => h r (List.mem_cons_of_mem a hr))
      unfold updateRow at ht ⊢
      simp only [List.map_cons, ht]
      rw [if_neg]
      simpa using ha

/-- A root with no fetched rows has no maximum id. -/
theorem maxIdFor_eq_none (s : Store) (root : Nat)
    (h : fetch_chat_history root s = []) :
    maxIdFor s root = none := by
  induction s with
  | nil => rfl
  | cons a s ih =>
      unfold fetch_chat_history at h ih
      rw [List.filter_cons] at h
      by_cases ha : a.root_id = root
      · simp [ha] at h
      · rw [if_neg (by simpa using ha)] at h
        simp [maxIdFor, ha, ih h]

/-- What a run of id-less appends produces: the new rows sit at the end of
the table, their ids counting up from the allocation point, and the
returned ids are exactly those. -/
theorem appendSeq_spec (root : Nat) (msgs : List (String × String)) (s : Store) :
    (appendSeq root msgs s).1 =
      s ++ msgs.enum.map (fun p => ⟨root, nextIdFor s root + p.1, p.2.1, p.2.2⟩) ∧
    (appendSeq root msgs s).2 =
      (List.range msgs.length).map (fun i => nextIdFor s root + i) := by
  induction msgs generalizing s with
  | nil => simp [appendSeq]
  | cons rc rest ih =>
      obtain ⟨ro, co⟩ := rc
      have hins : (insert_chat_message ro co root none s).1 =
          s ++ [⟨root, nextIdFor s root, ro, co⟩] := rfl
      have hseq1 : (appendSeq root ((ro, co) :: rest) s).1 =
          (appendSeq root rest (s ++ [⟨root, nextIdFor s root, ro, co⟩])).1 := by
        rw [← hins]; rfl
      have hseq2 : (appendSeq root ((ro, co) :: rest) s).2 =
          nextIdFor s root ::
            (appendSeq root rest (s ++ [⟨root, nextIdFor s root, ro, co⟩])).2 := by
        rw [← hins]; rfl
      have hnext := nextIdFor_snoc_self s root ro co
      obtain ⟨ih1, ih2⟩ := ih (s ++ [⟨root, nextIdFor s root, ro, co⟩])
      rw [hnext] at ih1 ih2
      constructor
      · rw [hseq1, ih1, List.enum_cons']
        simp only [List.map_cons, List.map_map, List.append_assoc,
          List.singleton_append, Nat.add_zero]
        refine congrArg (s ++ ·) (congrArg _ ?_)
        refine List.map_congr_left (fun p _ => ?_)
        simp [Prod.map]
        omega
      · rw [hseq2, ih2, List.length_cons, List.range_succ_eq_map]
        simp only [List.map_cons, List.map_map, Nat.add_zero]
        refine congrArg _ (List.map_congr_left (fun i _ => ?_))
        simp
        omega

/-! ## Claim C5 -/

/-- C5: starting from a store holding no rows for `root`, a run of appends
without explicit turn returns the gapless ids `0, 1, 2, …`, each row landing
at its returned id at the end of the table; and in general an id-less append
allocates `max(existing ids for the root) + 1`, or 0 when there are none. -/
theorem C5_gapless_allocation (root : Nat) (msgs : List (String × String))
    (s : Store) (h : fetch_chat_history root s = []) :
    (appendSeq root msgs s).2 = List.range msgs.length ∧
    (appendSeq root msgs s).1 =
      s ++ msgs.enum.map (fun p => ⟨root, p.1, p.2.1, p.2.2⟩) ∧
    ∀ (role content : String) (t : Store),
      (insert_chat_message role content root none t).2 =
        (match maxIdFor t root with
         | none => 0
         | some m => m + 1) := by
  have hz : nextIdFor s root = 0 := by
    unfold nextIdFor
    rw [maxIdFor_eq_none s root h]
  obtain ⟨h1, h2⟩ := appendSeq_spec root msgs s
  rw [hz] at h1 h2
  refine ⟨?_, ?_, fun role content t => rfl⟩
  · rw [h2]
    simp
  · rw [h1]
    simp

/-- C5 witness: two appends into root 7 of a store that has a row only for
root 0 yield ids 0 then 1 and land in order at the end of the table. -/
theorem C5_gapless_allocation_witness :
    (appendSeq 7 [("user", "a"), ("assistant", "b")] [⟨0, 0, "user", "x"⟩]).2 =
      [0, 1] ∧
    (appendSeq 7 [("user", "a"), ("assistant", "b")] [⟨0, 0, "user", "x"⟩]).1 =
      [⟨0, 0, "user", "x"⟩, ⟨7, 0, "user", "a"⟩, ⟨7, 1, "assistant", "b"⟩] := by
  have h := C5_gapless_allocation 7 [("user", "a"), ("assistant", "b")]
    [⟨0, 0, "user", "x"⟩] rfl
  refine ⟨h.1.trans (by rfl), h.2.1.trans (by rfl)⟩

/-- The two halves of an `insert_chat_message` call with explicit id. -/
theorem insert_some_eq (role content : String) (root i : Nat) (s : Store) :
    (insert_chat_message role content root (some i) s).1 =
      (if existsAt s root i then updateRow s root i role content
       else s ++ [⟨root, i, role, content⟩]) ∧
    (insert_chat_message role content root (some i) s).2 = i := by
  unfold insert_chat_message
  by_cases h : existsAt s root i <;> simp [h]

/-- No row at `(root, i)` means no row of the table matches the key. -/
theorem existsAt_false_iff (s : Store) (root i : Nat) :
    existsAt s root i = false ↔ ∀ r ∈ s, ¬(r.root_id = root ∧ r.id = i) := by
  unfold existsAt
  rw [List.any_eq_false]
  simp

/-- `UPDATE` does not change any row's `(root_id, id)` key. -/
theorem updateRow_map_key (s : Store) (root i : Nat) (ro co : String) :
    (updateRow s root i ro co).map (fun r => (r.root_id, r.id)) =
      s.map (fun r => (r.root_id, r.id)) := by
  unfold updateRow
  rw [List.map_map]
  refine List.map_congr_left (fun r _ => ?_)
  simp only [Function.comp]
  split <;> rfl

/-- Key uniqueness is preserved by every `insert_chat_message` call. -/
theorem dupFree_insert (role content : String) (root : Nat) (id : Option Nat)
    (s : Store) (hd : dupFree s) :
    dupFree (insert_chat_message role content root id s).1 := by
  unfold dupFree at *
  cases id with
  | none =>
      have hins : (insert_chat_message role content root none s).1 =
          s ++ [⟨root, nextIdFor s root, role, content⟩] := rfl
      rw [hins, List.map_append, List.nodup_append]
      refine ⟨hd, List.nodup_singleton _, ?_⟩
      intro p hp hq
      simp only [List.map_cons, List.map_nil, List.mem_singleton] at hq
      obtain ⟨r, hr, hkey⟩ := List.mem_map.mp hp
      subst hq
      have hroot : r.root_id = root := congrArg Prod.fst hkey
      have hid : r.id = nextIdFor s root := congrArg Prod.snd hkey
      exact absurd hid (Nat.ne_of_lt (nextIdFor_fresh s root r hr hroot))
  | some i =>
      rw [(insert_some_eq role content root i s).1]
      by_cases hex : existsAt s root i
      · rw [if_pos hex, updateRow_map_key]
        exact hd
      · rw [if_neg hex, List.map_append, List.nodup_append]
        refine ⟨hd, List.nodup_singleton _, ?_⟩
        intro p hp hq
        simp only [List.map_cons, List.map_nil, List.mem_singleton] at hq
        obtain ⟨r, hr, hkey⟩ := List.mem_map.mp hp
        subst hq
        have hroot : r.root_id = root := congrArg Prod.fst hkey
        have hid : r.id = i := congrArg Prod.snd hkey
        have := (existsAt_false_iff s root i).mp (Bool.of_not_eq_true hex) r hr
        exact this ⟨hroot, hid⟩

/-- Key uniqueness is preserved by every sequence of appends. -/
theorem dupFree_applyOps (ops : List Op) (s : Store) (hd : dupFree s) :
    dupFree (applyOps s ops) := by
  induction ops generalizing s with
  | nil => exact hd
  | cons op ops ih =>
      exact ih (applyOp s op) (dupFree_insert op.role op.content op.root op.id s hd)

/-- In a key-unique store, a thread's fetched ids are pairwise distinct. -/
theorem dupFree_fetch_nodup (s : Store) (root : Nat) (hd : dupFree s) :
    ((fetch_chat_history root s).map Row.id).Nodup := by
  unfold dupFree at hd
  unfold fetch_chat_history
  induction s with
  | nil => simp
  | cons a s ih =>
      rw [List.map_cons, List.nodup_cons] at hd
      obtain ⟨hnotin, hd'⟩ := hd
      rw [List.filter_cons]
      by_cases ha : a.root_id = root
      · rw [if_pos (by simpa using ha)]
        rw [List.map_cons, List.nodup_cons]
        refine ⟨?_, ih hd'⟩
        intro hmem
        obtain ⟨r, hr, hid⟩ := List.mem_map.mp hmem
        have hrs : r ∈ s := (List.mem_filter.mp hr).1
        have hroot : r.root_id = root := by simpa using (List.mem_filter.mp hr).2
        apply hnotin
        rw [List.mem_map]
        exact ⟨r, hrs, by rw [hroot, hid, ha]⟩
      · rw [if_neg (by simpa using ha)]
        exact ih hd'

/-- After an `UPDATE` at an existing key, the first row fetched at that key
is the updated one. -/
theorem fetch_row_updateRow (s : Store) (root i : Nat) (ro co : String)
    (h : existsAt s root i = true) :
    fetch_row i root (updateRow s root i ro co) = some ⟨root, i, ro, co⟩ := by
  induction s with
  | nil => simp [existsAt] at h
  | cons a s ih =>
      by_cases ha : (a.root_id = root ∧ a.id = i)
      · have hcond : (decide (a.root_id = root) && decide (a.id = i)) = true := by
          simp [ha.1, ha.2]
        unfold updateRow fetch_row
        simp only [List.map_cons]
        rw [if_pos hcond, List.filter_cons]
        rw [if_pos (by simpa using ha)]
        simp [ha.1, ha.2]
      · have hcond : ¬((decide (a.root_id = root) && decide (a.id = i)) = true) := by
          simpa using ha
        have hrest : existsAt s root i = true := by
          unfold existsAt at h ⊢
          rw [List.any_cons] at h
          rcases Bool.or_eq_true_iff.mp h with h' | h'
          · exact absurd h' hcond
          · exact h'
        unfold updateRow fetch_row at ih ⊢
        simp only [List.map_cons]
        rw [if_neg hcond, List.filter_cons, if_neg hcond]
        exact ih hrest

/-- A fresh insert at key `(root, i)` fetches back the inserted row. -/
theorem fetch_row_insert_fresh (s : Store) (root i : Nat) (ro co : String)
    (hno : existsAt s root i = false) :
    fetch_row i root (s ++ [⟨root, i, ro, co⟩]) = some ⟨root, i, ro, co⟩ := by
  unfold fetch_row
  rw [List.filter_append]
  have hnil : s.filter (fun r => r.root_id = root && r.id = i) = [] := by
    rw [List.filter_eq_nil_iff]
    intro r hr
    have := (existsAt_false_iff s root i).mp hno r hr
    simpa using this
  rw [hnil]
  simp

/-- The upsert at key `(root, i)` always fetches back the written values. -/
theorem fetch_row_upsert (s : Store) (root i : Nat) (ro co : String) :
    fetch_row i root ((insert_chat_message ro co root (some i) s).1) =
      some ⟨root, i, ro, co⟩ := by
  rw [(insert_some_eq ro co root i s).1]
  by_cases hex : existsAt s root i
  · rw [if_pos hex]
    exact fetch_row_updateRow s root i ro co hex
  · rw [if_neg hex]
    exact fetch_row_insert_fresh s root i ro co (Bool.of_not_eq_true hex)

/-! ## Claim C6 -/

/-- C6: an append with explicit turn `t` onto an existing `(root, t)` row
overwrites the row's role and content in place (same table length, the row
reads back with the new values) and returns `t`; and after *any* sequence of
append operations on a key-unique store, no thread ever fetches two rows
with the same turn. -/
theorem C6_upsert_overwrites_in_place (s : Store) (root t : Nat)
    (role content : String) (hex : existsAt s root t = true) :
    (insert_chat_message role content root (some t) s).2 = t ∧
    (insert_chat_message role content root (some t) s).1 =
      updateRow s root t role content ∧
    ((insert_chat_message role content root (some t) s).1).length = s.length ∧
    fetch_row t root (insert_chat_message role content root (some t) s).1 =
      some ⟨root, t, role, content⟩ ∧
    ∀ (s₀ : Store) (ops : List Op) (root' : Nat), dupFree s₀ →
      ((fetch_chat_history root' (applyOps s₀ ops)).map Row.id).Nodup := by
  refine ⟨(insert_some_eq role content root t s).2, ?_, ?_,
    fetch_row_upsert s root t role content,
    fun s₀ ops root' hd => dupFree_fetch_nodup _ root' (dupFree_applyOps ops s₀ hd)⟩
  · rw [(insert_some_eq role content root t s).1, if_pos hex]
  · rw [(insert_some_eq role content root t s).1, if_pos hex]
    exact List.length_map s _

/-- C6 witness: overwriting the single row of `[⟨0,0,user,x⟩]` at turn 0
with `(assistant, y)` keeps one row, reads back the new values, returns 0;
and a concrete append sequence from the empty store fetches duplicate-free
turns. -/
theorem C6_upsert_overwrites_in_place_witness :
    (insert_chat_message "assistant" "y" 0 (some 0) [⟨0, 0, "user", "x"⟩]).2 = 0 ∧
    (insert_chat_message "assistant" "y" 0 (some 0) [⟨0, 0, "user", "x"⟩]).1 =
      [⟨0, 0, "assistant", "y"⟩] ∧
    ((insert_chat_message "assistant" "y" 0 (some 0) [⟨0, 0, "user", "x"⟩]).1).length = 1 ∧
    fetch_row 0 0 (insert_chat_message "assistant" "y" 0 (some 0) [⟨0, 0, "user", "x"⟩]).1 =
      some ⟨0, 0, "assistant", "y"⟩ ∧
    ((fetch_chat_history 0 (applyOps []
        [⟨"user", "a", 0, none⟩, ⟨"assistant", "b", 0, some 0⟩])).map Row.id).Nodup := by
  have h := C6_upsert_overwrites_in_place [⟨0, 0, "user", "x"⟩] 0 0 "assistant" "y" rfl
  exact ⟨h.1, h.2.1.trans (by rfl), h.2.2.1, h.2.2.2.1,
    h.2.2.2.2 [] [⟨"user", "a", 0, none⟩, ⟨"assistant", "b", 0, some 0⟩] 0
      (by simp [dupFree])⟩

/-- Fetching distributes over physical concatenation of the table. -/
theorem fetch_chat_history_append (root' : Nat) (s t : Store) :
    fetch_chat_history root' (s ++ t) =
      fetch_chat_history root' s ++ fetch_chat_history root' t := by
  unfold fetch_chat_history
  exact List.filter_append _ _

/-- An `UPDATE` keyed on one root leaves every other root's fetched history
untouched. -/
theorem fetch_chat_history_updateRow_other (s : Store) (root i : Nat)
    (ro co : String) (root' : Nat) (hne : root ≠ root') :
    fetch_chat_history root' (updateRow s root i ro co) =
      fetch_chat_history root' s := by
  unfold fetch_chat_history updateRow
  rw [List.filter_map]
  refine Eq.trans (congrArg _ (List.filter_congr (fun r _ => ?_)))
    (Eq.trans (List.map_congr_left (fun r hr => ?_)) (List.map_id _))
  · by_cases hc : (decide (r.root_id = root) && decide (r.id = i)) = true <;>
      simp [Function.comp, hc]
  · have hroot' : r.root_id = root' := by
      simpa using (List.mem_filter.mp hr).2
    have hnr : ¬ r.root_id = root := by
      rw [hroot']
      exact fun h => hne h.symm
    simp [hnr]

/-- An upsert keyed on one root leaves every other root's fetched history
untouched. -/
theorem fetch_chat_history_upsert_other (ro co : String) (root i : Nat)
    (s : Store) (root' : Nat) (hne : root ≠ root') :
    fetch_chat_history root' ((insert_chat_message ro co root (some i) s).1) =
      fetch_chat_history root' s := by
  rw [(insert_some_eq ro co root i s).1]
  by_cases hex : existsAt s root i
  · rw [if_pos hex]
    exact fetch_chat_history_updateRow_other s root i ro co root' hne
  · rw [if_neg hex, fetch_chat_history_append]
    have hnil : fetch_chat_history root' [(⟨root, i, ro, co⟩ : Row)] = [] := by
      simp [fetch_chat_history, hne]
    rw [hnil, List.append_nil]

/-- What a non-silent hook call computes, in terms of the message's payload:
record the payload body into the exchange thread, then upsert the truncated
summary as an `info` row of the top-level thread. -/
theorem post_nonsilent_eq (msg_idx : Nat) (senderName : String)
    (m : AgentMessage) (s : Store) (body summary : String)
    (hpay : payloadOf m = some (body, summary)) :
    post_snippet_and_record_history msg_idx senderName m false s =
      Except.ok ((insert_chat_message "info" (summarize summary) 0 (some (msg_idx + 1))
        ((insert_chat_message senderName body (msg_idx + 1) none s).1)).1, m) := by
  cases m with
  | ofStr str =>
      have h : (str, str) = (body, summary) := by
        simpa [payloadOf] using hpay
      injection h with h1 h2
      subst h1
      subst h2
      rfl
  | ofDict c tc =>
      cases c with
      | none =>
          cases tc with
          | none => simp [payloadOf] at hpay
          | some t =>
              have h : (t, "Calling tools…") = (body, summary) := by
                simpa [payloadOf] using hpay
              injection h with h1 h2
              subst h1
              subst h2
              rfl
      | some c =>
          by_cases hc : c = ""
          · subst hc
            cases tc with
            | none => simp [payloadOf] at hpay
            | some t =>
                have h : (t, "Calling tools…") = (body, summary) := by
                  simpa [payloadOf] using hpay
                injection h with h1 h2
                subst h1
                subst h2
                rfl
          · have h : (c, c) = (body, summary) := by
              simpa [payloadOf, hc] using hpay
            injection h with h1 h2
            subst h1
            subst h2
            show (if c ≠ "" then _ else _) = _
            rw [if_pos hc]

/-- The summary snippet is hard-truncated to 100 characters. -/
theorem summarize_length_le (text : String) : (summarize text).length ≤ 100 := by
  show (text.data.take 100).length ≤ 100
  rw [List.length_take]
  exact min_le_left _ _

/-- `UPDATE` distributes over physical concatenation of the table. -/
theorem updateRow_append (s t : Store) (root i : Nat) (ro co : String) :
    updateRow (s ++ t) root i ro co =
      updateRow s root i ro co ++ updateRow t root i ro co :=
  List.map_append _ _ _

/-! ## Claim C9 -/

/-- C9: a hook invocation with `silent = true` performs no persistence — the
store is returned exactly as it was — and hands the message back
unchanged, for every message shape. -/
theorem C9_silent_call_is_pure (msg_idx : Nat) (senderName : String)
    (message : AgentMessage) (s : Store) :
    post_snippet_and_record_history msg_idx senderName message true s =
      Except.ok (s, message) := rfl

/-! ## Claim C4 -/

/-- C4 counterexample: a non-silent hook call for `msg_idx = 0` on the plain
string message `"hi"` — whose exchange thread is `root = 1`, *not* the
top-level thread — still persists the second `info` summary row into
root 0: the claimed "second row iff the message is addressed to root 0"
fails. -/
theorem C4_counterexample :
    post_snippet_and_record_history 0 "assistant" (AgentMessage.ofStr "hi") false [] =
      Except.ok ([⟨1, 0, "assistant", "hi"⟩, ⟨0, 1, "info", "hi"⟩],
        AgentMessage.ofStr "hi") ∧
    fetch_chat_history 0 [⟨1, 0, "assistant", "hi"⟩, ⟨0, 1, "info", "hi"⟩] =
      [⟨0, 1, "info", "hi"⟩] :=
  ⟨rfl, rfl⟩

/-- C4 (amended): a non-silent hook call on a message with textual content
or a structured tool-call payload persists exactly one Message into the
exchange's thread `root = msg_idx + 1` (role = sender, content = the text,
or the serialized tool-call payload when there is a structured call and no
truthy content) and *always* also upserts a second `info`-role summary row,
truncated to 100 characters, at `(root = 0, turn = msg_idx + 1)` of the
top-level thread, regardless of which thread the message belongs to. -/
theorem C4_amended_info_row_always (msg_idx : Nat) (senderName : String)
    (m : AgentMessage) (s : Store) (body summary : String)
    (hpay : payloadOf m = some (body, summary)) :
    post_snippet_and_record_history msg_idx senderName m false s =
      Except.ok ((insert_chat_message "info" (summarize summary) 0 (some (msg_idx + 1))
        (s ++ [⟨msg_idx + 1, nextIdFor s (msg_idx + 1), senderName, body⟩])).1, m) ∧
    fetch_chat_history (msg_idx + 1)
        (insert_chat_message "info" (summarize summary) 0 (some (msg_idx + 1))
          (s ++ [⟨msg_idx + 1, nextIdFor s (msg_idx + 1), senderName, body⟩])).1 =
      fetch_chat_history (msg_idx + 1) s ++
        [⟨msg_idx + 1, nextIdFor s (msg_idx + 1), senderName, body⟩] ∧
    fetch_row (msg_idx + 1) 0
        (insert_chat_message "info" (summarize summary) 0 (some (msg_idx + 1))
          (s ++ [⟨msg_idx + 1, nextIdFor s (msg_idx + 1), senderName, body⟩])).1 =
      some ⟨0, msg_idx + 1, "info", summarize summary⟩ ∧
    (summarize summary).length ≤ 100 := by
  have hsnoc : (insert_chat_message senderName body (msg_idx + 1) none s).1 =
      s ++ [⟨msg_idx + 1, nextIdFor s (msg_idx + 1), senderName, body⟩] := rfl
  refine ⟨?_, ?_, ?_, summarize_length_le summary⟩
  · rw [post_nonsilent_eq msg_idx senderName m s body summary hpay, hsnoc]
  · rw [fetch_chat_history_upsert_other _ _ _ _ _ _ (Nat.succ_ne_zero msg_idx).symm,
      fetch_chat_history_append]
    simp [fetch_chat_history]
  · exact fetch_row_upsert _ 0 (msg_idx + 1) "info" (summarize summary)

/-- C4 witness: a dict message with empty content and a tool-call payload,
for `msg_idx = 0` on the empty store: one row in thread 1 with the
serialized payload, one truncated `info` row at `(0, 1)`. -/
theorem C4_amended_info_row_always_witness :
    post_snippet_and_record_history 0 "assistant"
        (AgentMessage.ofDict (some "") (some "[]")) false [] =
      Except.ok ([⟨1, 0, "assistant", "[]"⟩, ⟨0, 1, "info", "Calling tools…"⟩],
        AgentMessage.ofDict (some "") (some "[]")) ∧
    fetch_chat_history 1 [⟨1, 0, "assistant", "[]"⟩, ⟨0, 1, "info", "Calling tools…"⟩] =
      [⟨1, 0, "assistant", "[]"⟩] ∧
    fetch_row 1 0 [⟨1, 0, "assistant", "[]"⟩, ⟨0, 1, "info", "Calling tools…"⟩] =
      some ⟨0, 1, "info", "Calling tools…"⟩ ∧
    (summarize "Calling tools…").length ≤ 100 := by
  have h := C4_amended_info_row_always 0 "assistant"
    (AgentMessage.ofDict (some "") (some "[]")) [] "[]" "Calling tools…" rfl
  exact ⟨h.1.trans (by rfl), (Eq.trans (by rfl) h.2.1).trans (by rfl),
    (Eq.trans (by rfl) h.2.2.1).trans (by rfl), h.2.2.2⟩

/-! ## Claim C7 -/

/-- C7 counterexample: on an empty store, the request `"hi"` is persisted at
turn 0 of the top-level thread, but the final assistant summary lands at
turn 1, not at the originating request's turn 0 — the row at turn 0 is
still the user's request. -/
theorem C7_counterexample :
    exchangeFlow "hi" "resp" [] =
      ([⟨0, 0, "user", "hi"⟩, ⟨0, 1, "assistant", "resp"⟩], 0) ∧
    fetch_row 0 0 [⟨0, 0, "user", "hi"⟩, ⟨0, 1, "assistant", "resp"⟩] =
      some ⟨0, 0, "user", "hi"⟩ :=
  ⟨rfl, rfl⟩

/-- C7 (amended): one exchange for a request allocated at turn `r` of the
top-level thread persists the request row at `(0, r)` and exactly one final
assistant-role summary at `(0, r + 1)` — the originating request's turn
*plus one* (which is also the exchange thread's root id), overwriting the
`info` placeholder that was put there. -/
theorem C7_amended_response_turn (s : Store) (input response : String) :
    (exchangeFlow input response s).2 = nextIdFor s 0 ∧
    (exchangeFlow input response s).1 =
      s ++ [⟨0, nextIdFor s 0, "user", input⟩,
            ⟨0, nextIdFor s 0 + 1, "assistant", response⟩] := by
  refine ⟨rfl, ?_⟩
  have hr2 : (insert_chat_message "user" input 0 none s).2 = nextIdFor s 0 := rfl
  have h1 : (insert_chat_message "user" input 0 none s).1 =
      s ++ [⟨0, nextIdFor s 0, "user", input⟩] := rfl
  have hflow : (exchangeFlow input response s).1 =
      (insert_chat_message "assistant" response 0 (some (nextIdFor s 0 + 1))
        ((insert_chat_message "info" "Computing response…" 0 (some (nextIdFor s 0 + 1))
          (s ++ [⟨0, nextIdFor s 0, "user", input⟩])).1)).1 := rfl
  have hnomatch : ∀ row ∈ s ++ [(⟨0, nextIdFor s 0, "user", input⟩ : Row)],
      row.root_id = 0 → row.id < nextIdFor s 0 + 1 := by
    intro row hrow hroot
    rcases List.mem_append.mp hrow with h | h
    · exact Nat.lt_succ_of_lt (nextIdFor_fresh s 0 row h hroot)
    · rcases List.mem_singleton.mp h with rfl
      exact Nat.lt_succ_self _
  have hex1 : existsAt (s ++ [⟨0, nextIdFor s 0, "user", input⟩]) 0
      (nextIdFor s 0 + 1) = false :=
    existsAt_eq_false _ 0 (nextIdFor s 0 + 1) hnomatch
  have h2 : (insert_chat_message "info" "Computing response…" 0
      (some (nextIdFor s 0 + 1)) (s ++ [⟨0, nextIdFor s 0, "user", input⟩])).1 =
      (s ++ [⟨0, nextIdFor s 0, "user", input⟩]) ++
        [⟨0, nextIdFor s 0 + 1, "info", "Computing response…"⟩] := by
    rw [(insert_some_eq _ _ _ _ _).1, if_neg (by simp [hex1])]
  have hex2 : existsAt ((s ++ [⟨0, nextIdFor s 0, "user", input⟩]) ++
      [⟨0, nextIdFor s 0 + 1, "info", "Computing response…"⟩]) 0
      (nextIdFor s 0 + 1) = true := by
    unfold existsAt
    rw [List.any_append]
    apply Bool.or_eq_true_iff.mpr
    right
    simp
  have h3 : updateRow ((s ++ [⟨0, nextIdFor s 0, "user", input⟩]) ++
      [⟨0, nextIdFor s 0 + 1, "info", "Computing response…"⟩]) 0
      (nextIdFor s 0 + 1) "assistant" response =
      (s ++ [⟨0, nextIdFor s 0, "user", input⟩]) ++
        [⟨0, nextIdFor s 0 + 1, "assistant", response⟩] := by
    rw [updateRow_append]
    have hl : updateRow (s ++ [⟨0, nextIdFor s 0, "user", input⟩]) 0
        (nextIdFor s 0 + 1) "assistant" response =
        s ++ [⟨0, nextIdFor s 0, "user", input⟩] := by
      apply updateRow_no_match
      intro row hrow hcontra
      exact absurd hcontra.2 (Nat.ne_of_lt (hnomatch row hrow hcontra.1))
    have hp : updateRow [(⟨0, nextIdFor s 0 + 1, "info", "Computing response…"⟩ : Row)]
        0 (nextIdFor s 0 + 1) "assistant" response =
        [⟨0, nextIdFor s 0 + 1, "assistant", response⟩] := by
      simp [updateRow]
    rw [hl, hp]
  rw [hflow, h2, (insert_some_eq _ _ _ _ _).1, if_pos hex2, h3]
  simp

end NexaAgents
